import Mathlib

/-!
Verification development for the pymdp repository core:
fixed-point-iteration state inference (`pymdp/algos/fpi.py`),
Dirichlet learning and model reduction (`pymdp/jax/learning.py`),
and the inference method dispatcher (`inferactively/core/inference.py`).

Numpy arrays are embedded as a shape together with row-major flattened
data (`NDArray`).  The learning and pruning code is pure rational
arithmetic and is embedded over `ℚ`; the FPI solver uses `log`/`exp`
and is embedded over `ℝ`.  Helper functions of the repository that are
not part of the given sources (`pymdp.maths`, `pymdp.utils`,
`inferactively.core.algos`) are modelled from the specification; each
such definition carries a doc comment saying so.
-/

namespace PyMDP

/-- A numpy `ndarray`: its shape, and its entries flattened in row-major
(C) order. -/
structure NDArray (α : Type) where
  shape : List ℕ
  data : List α
deriving DecidableEq

/-- Default (empty) rational array, used as the out-of-range default for
object-array indexing. -/
def nd0 : NDArray ℚ := ⟨[], []⟩

/-- One step of a Kronecker/outer product on row-major flattened data:
every entry of `a` multiplied by every entry of `b`, `b` varying fastest. -/
def crossData {α : Type} [Mul α] (a b : List α) : List α :=
  a.flatMap fun x => b.map fun y => x * y

/-- Modelled from the spec: `pymdp.maths.spm_cross` is not under `src/`.
Spec section 4.1, `outer(vectors)`: builds the joint (Kronecker) tensor of a
list of 1-D probability vectors.  The first argument is the leading vector
(the observation in the learning rules), the remaining factors follow in
order. -/
def spm_cross {α : Type} [Mul α] (v : List α) (qs : List (List α)) : NDArray α :=
  ⟨v.length :: qs.map List.length, qs.foldl crossData v⟩

/-- One-hot vector over `ℚ` (`np.eye(n)[i]`). -/
def one_hot (n i : ℕ) : List ℚ :=
  (List.range n).map fun j => if j = i then 1 else 0

/-- Observation argument accepted at the learning boundary: an index, a
tuple of indices, a one-hot vector, or an object array of one-hot vectors. -/
inductive ObsInput
  | index (i : ℕ)
  | indices (ts : List ℕ)
  | onehot (v : List ℚ)
  | onehots (vs : List (List ℚ))
deriving DecidableEq

/-- Modelled from the spec: `pymdp.utils.process_observation` and
`to_obj_array` are not under `src/`.  Spec section 6: observation input is
either an integer index per modality (expanded to one-hot against the
number of observation levels of that modality) or an already-one-hot
vector; multi-modality observations are a fixed-order sequence of
per-modality vectors.  The result is the object array of per-modality
one-hot vectors. -/
def process_observation (obs : ObsInput) (num_modalities : ℕ)
    (num_observations : List ℕ) : List (List ℚ) :=
  match obs with
  | .index i => [one_hot (num_observations.getD 0 0) i]
  | .indices ts =>
      (List.range num_modalities).map fun m => one_hot (num_observations.getD m 0) (ts.getD m 0)
  | .onehot v => [v]
  | .onehots vs => vs

/-- Translation of `modalities == "all" / factors == "all"` handling in
`learning.py`: `none` stands for the string `"all"` and expands to
`list(range(n))`. -/
def effective_idxs (n : ℕ) (sel : Option (List ℕ)) : List ℕ :=
  sel.getD (List.range n)

/-- The in-place update loops of `learning.py`
(`for m in selection: arr[m] = step(m, arr[m])`): fold the indexed update
`u` over the selected indices in order, each step reading and replacing
the current cell (`d` is the out-of-range default of the read). -/
def set_fold {α : Type} (d : α) (u : ℕ → α → α) : List ℕ → List α → List α
  | [], xs => xs
  | m :: l, xs => set_fold d u l (xs.set m (u m (xs.getD m d)))

/-- Body of the modality loop of `update_obs_likelihood_dirichlet`
(`learning.py` lines 53-56): `dfda = spm_cross(obs[modality], qs)`,
`dfda = dfda * (A[modality] > 0).astype(float)`,
`qA[modality] = qA[modality] + (lr * dfda)`. -/
def update_obs_modality (qAm Am : NDArray ℚ) (obsm : List ℚ)
    (qs : List (List ℚ)) (lr : ℚ) : NDArray ℚ :=
  let dfda := spm_cross obsm qs
  let masked := List.zipWith (fun d a => d * (if 0 < a then (1 : ℚ) else 0)) dfda.data Am.data
  ⟨qAm.shape, List.zipWith (· + ·) qAm.data (masked.map fun x => lr * x)⟩

/-- `learning.py` lines 9-58, `update_obs_likelihood_dirichlet(pA, A, obs,
qs, lr, modalities)`.  `qA = copy.deepcopy(pA)` is value copying, so the
translation threads the updated array through the modality loop. -/
def update_obs_likelihood_dirichlet (pA A : List (NDArray ℚ)) (obs : ObsInput)
    (qs : List (List ℚ)) (lr : ℚ) (modalities : Option (List ℕ)) : List (NDArray ℚ) :=
  let num_modalities := pA.length
  let num_observations := pA.map fun a => a.shape.headD 0
  let obs1 := process_observation obs num_modalities num_observations
  set_fold nd0
    (fun modality qAm => update_obs_modality qAm (A.getD modality nd0) (obs1.getD modality []) qs lr)
    (effective_idxs num_modalities modalities) pA

/-- Body of the factor loop of `update_state_likelihood_dirichlet`
(`learning.py` lines 101-104): `dfdb = spm_cross(qs[factor], qs_prev[factor])`,
`dfdb *= (B[factor][:, :, actions[factor]] > 0)`,
`qB[factor][:, :, int(actions[factor])] += lr * dfdb`.
With `pBf.shape = [ns1, ns2, na]`, flat position `p` has action coordinate
`p % na` and state-pair coordinate `p / na`; the `(s, v, a)` entry of the
3-D tensor sits at flat position `(s * ns2 + v) * na + a`. -/
def update_trans_factor (qBf Bf : NDArray ℚ) (a : ℕ) (qsf qs_prevf : List ℚ)
    (lr : ℚ) : NDArray ℚ :=
  let na := qBf.shape.getD 2 0
  let dfdb := spm_cross qsf [qs_prevf]
  let masked := (List.range dfdb.data.length).map fun sv =>
    dfdb.data.getD sv 0 * (if 0 < Bf.data.getD (sv * na + a) 0 then (1 : ℚ) else 0)
  ⟨qBf.shape, (List.range qBf.data.length).map fun p =>
    qBf.data.getD p 0 + (if p % na = a then lr * masked.getD (p / na) 0 else 0)⟩

/-- `learning.py` lines 60-106, `update_state_likelihood_dirichlet(pB, B,
actions, qs, qs_prev, lr, factors)`. -/
def update_state_likelihood_dirichlet (pB B : List (NDArray ℚ)) (actions : List ℕ)
    (qs qs_prev : List (List ℚ)) (lr : ℚ) (factors : Option (List ℕ)) : List (NDArray ℚ) :=
  let num_factors := pB.length
  set_fold nd0
    (fun factor qBf => update_trans_factor qBf (B.getD factor nd0)
      (actions.getD factor 0) (qs.getD factor []) (qs_prev.getD factor []) lr)
    (effective_idxs num_factors factors) pB

/-- Body of the factor loop of `update_state_prior_dirichlet`
(`learning.py` lines 141-143): `idx = pD[factor] > 0` and
`qD[factor][idx] += lr * qs[factor][idx]` — the support mask is taken from
the original `pD`. -/
def update_prior_factor (pDf qDf qsf : List ℚ) (lr : ℚ) : List ℚ :=
  (List.range qDf.length).map fun i =>
    if 0 < pDf.getD i 0 then qDf.getD i 0 + lr * qsf.getD i 0 else qDf.getD i 0

/-- `learning.py` lines 108-145, `update_state_prior_dirichlet(pD, qs, lr,
factors)`. -/
def update_state_prior_dirichlet (pD qs : List (List ℚ)) (lr : ℚ)
    (factors : Option (List ℕ)) : List (List ℚ) :=
  let num_factors := pD.length
  set_fold []
    (fun factor qDf => update_prior_factor (pD.getD factor []) qDf (qs.getD factor []) lr)
    (effective_idxs num_factors factors) pD

/-- Observable effects of the pruning functions, in the order the source
performs them: the `print` warning for a fully removed factor
(`learning.py` line 182), a numpy slicing operation (`s_i[levels_to_keep]`,
`A_i[np.ix_(...)]`), and a renormalization (`utils.norm_dist`). -/
inductive PruneEvent
  | warning (f : ℕ)
  | sliced (f : ℕ)
  | renormalized (f : ℕ)
deriving DecidableEq

/-- Python exceptions raised by the embedded code. -/
inductive PyErr
  | notImplementedError (msg : String)
  | valueError (msg : String)
  | assertionError
  | typeError
deriving DecidableEq

/-- Message of the `NotImplementedError` in `_prune_prior` (line 188/205). -/
def prune_prior_msg : String :=
  "Need to figure out how to re-distribute concentration parameters from pruned levels, across remaining levels"

/-- Message of the `NotImplementedError` in `_prune_A` (lines 263/276). -/
def prune_A_msg : String :=
  "Need to figure out how to re-distribute concentration parameters from pruned rows/columns, across remaining rows/columns"

/-- Modelled from the spec: `pymdp.utils.norm_dist` on a 1-D vector is not
under `src/`.  Spec section 4.6: removes levels and renormalizes the
remaining mass to sum to 1, i.e. divides by the total (`ℚ` division by the
zero sum of an empty slice yields the empty vector unchanged). -/
def norm_dist_vec (v : List ℚ) : List ℚ :=
  v.map fun x => x / v.sum

/-- `prune_keep ls f s_i` is `list(set(range(len(s_i))) - set(levels_to_remove[f]))`
from `_prune_prior`, in ascending order. -/
def prune_keep (ls : List (List ℕ)) (f : ℕ) (s_i : List ℚ) : List ℕ :=
  (List.range s_i.length).filter fun l => l ∉ ls.getD f []

/-- Prior argument of `_prune_prior`: an object array of factor vectors, or
one plain vector. -/
inductive PriorArg
  | objArr (ps : List (List ℚ))
  | single (p : List ℚ)
deriving DecidableEq

/-- Levels argument of the pruning functions: a list of lists (one per
factor or modality), or one flat list of ints. -/
inductive LevelsArg
  | perFactor (ls : List (List ℕ))
  | flat (ls : List ℕ)
deriving DecidableEq

/-- Result of `_prune_prior`: the object array (entries are `none` where
`utils.obj_array` left the cell unfilled) or the single reduced vector. -/
inductive PriorRes
  | objArr (ps : List (Option (List ℚ)))
  | single (p : List ℚ)
deriving DecidableEq

/-- The factor loop of `_prune_prior` (`learning.py` lines 177-188) on an
object-array prior, starting at factor index `f`.  Returns the events it
performed together with either the raised exception or the pair of the
partially filled `reduced_prior` cells and `factors_to_remove`. -/
def prune_prior_factors (dirichlet : Bool) (ls : List (List ℕ)) :
    ℕ → List (List ℚ) → List PruneEvent × Except PyErr (List (Option (List ℚ)) × List ℕ)
  | _, [] => ([], .ok ([], []))
  | f, s_i :: rest =>
    let keep := prune_keep ls f s_i
    if keep = [] then
      let r := prune_prior_factors dirichlet ls (f + 1) rest
      (PruneEvent.warning f :: r.1, r.2.map fun pr => (Option.none :: pr.1, f :: pr.2))
    else
      if dirichlet = false then
        let entry := norm_dist_vec (keep.map fun l => s_i.getD l 0)
        let r := prune_prior_factors dirichlet ls (f + 1) rest
        (PruneEvent.sliced f :: PruneEvent.renormalized f :: r.1,
         r.2.map fun pr => (Option.some entry :: pr.1, pr.2))
      else
        ([], .error (PyErr.notImplementedError prune_prior_msg))

/-- `learning.py` lines 147-207, `_prune_prior(prior, levels_to_remove,
dirichlet)`.  The `assert` on the type of `levels_to_remove` fails with
`AssertionError` when the argument kinds disagree.  When
`factors_to_remove` is non-empty the filled cells are re-indexed by
`factors_to_keep` (line 193); events are returned in the order the source
performs them. -/
def _prune_prior (prior : PriorArg) (levels : LevelsArg) (dirichlet : Bool) :
    List PruneEvent × Except PyErr PriorRes :=
  match prior, levels with
  | .objArr ps, .perFactor ls =>
      let r := prune_prior_factors dirichlet ls 0 ps
      (r.1, r.2.map fun pr =>
        if pr.2 = [] then PriorRes.objArr pr.1
        else
          let factors_to_keep := (List.range ps.length).filter fun f => f ∉ pr.2
          PriorRes.objArr (factors_to_keep.map fun f => pr.1.getD f none))
  | .objArr _, .flat _ => ([], .error PyErr.assertionError)
  | .single _, .perFactor _ => ([], .error PyErr.assertionError)
  | .single p, .flat ls =>
      let keep := (List.range p.length).filter fun l => l ∉ ls
      if dirichlet = false then
        ([PruneEvent.sliced 0, PruneEvent.renormalized 0],
         .ok (PriorRes.single (norm_dist_vec (keep.map fun l => p.getD l 0))))
      else
        ([], .error (PyErr.notImplementedError prune_prior_msg))

/-- Closed form of the non-Dirichlet factor loop of `_prune_prior`, used
to state its specification: per factor (with running index), the
events, the `reduced_prior` cell and the contribution to
`factors_to_remove`. -/
def prune_prior_spec (ls : List (List ℕ)) : ℕ → List (List ℚ) →
    List PruneEvent × List (Option (List ℚ)) × List ℕ
  | _, [] => ([], [], [])
  | f, s :: rest =>
    let r := prune_prior_spec ls (f + 1) rest
    if prune_keep ls f s = [] then
      (PruneEvent.warning f :: r.1, Option.none :: r.2.1, f :: r.2.2)
    else
      (PruneEvent.sliced f :: PruneEvent.renormalized f :: r.1,
       Option.some (norm_dist_vec ((prune_keep ls f s).map fun l => s.getD l 0)) :: r.2.1,
       r.2.2)

/-- All multi-indices of the given index lists, in row-major order
(`np.ix_` enumeration order). -/
def cartProd : List (List ℕ) → List (List ℕ)
  | [] => [[]]
  | l :: ls => l.flatMap fun x => (cartProd ls).map fun c => x :: c

/-- Row-major flat position of a multi-index in a tensor of the given shape. -/
def flatIndex : List ℕ → List ℕ → ℕ
  | _d :: ds, c :: cs => c * ds.prod + flatIndex ds cs
  | _, _ => 0
termination_by s _ => s.length

/-- `A[np.ix_(keep_0, keep_1, ...)]`: the sub-tensor whose axis `k` keeps
exactly the positions listed in `keeps[k]`, in that order. -/
def ix_slice (a : NDArray ℚ) (keeps : List (List ℕ)) : NDArray ℚ :=
  ⟨keeps.map List.length,
   (cartProd keeps).map fun c => a.data.getD (flatIndex a.shape c) 0⟩

/-- Modelled from the spec: `pymdp.utils.norm_dist` on an array of rank at
least 2 is not under `src/`.  Spec section 4.6: renormalizes each column
(each fixed configuration of the trailing axes) to sum to 1 over axis 0. -/
def norm_dist_col (a : NDArray ℚ) : NDArray ℚ :=
  let b := (a.shape.drop 1).prod
  let n0 := a.shape.headD 0
  ⟨a.shape, (List.range a.data.length).map fun p =>
    a.data.getD p 0 / ((List.range n0).map fun r => a.data.getD (r * b + p % b) 0).sum⟩

/-- Observation-model argument of `_prune_A`: an object array of
per-modality tensors, or one plain tensor. -/
inductive AArg
  | objArr (As : List (NDArray ℚ))
  | single (a : NDArray ℚ)
deriving DecidableEq

/-- Result of `_prune_A`. -/
inductive ARes
  | objArr (As : List (NDArray ℚ))
  | single (a : NDArray ℚ)
deriving DecidableEq

/-- `learning.py` lines 209-278, `_prune_A(A, obs_levels_to_prune,
state_levels_to_prune, dirichlet)`.  In both branches the source slices
every modality (lines 254-259 / 271) before the `dirichlet` test, so the
`sliced` events precede the `NotImplementedError`; mismatched argument
kinds fail in the `assert` (`AssertionError`) or in the set arithmetic
(`TypeError`). -/
def _prune_A (A : AArg) (obs_levels : LevelsArg) (state_levels : LevelsArg)
    (dirichlet : Bool) : List PruneEvent × Except PyErr ARes :=
  match A, obs_levels, state_levels with
  | .objArr As, .perFactor obsLs, .perFactor stLs =>
      let num_states := (As.headD nd0).shape.drop 1
      let columns_to_keep_list := (List.range num_states.length).map fun f =>
        (List.range (num_states.getD f 0)).filter fun l => l ∉ stLs.getD f []
      let reduced := As.mapIdx fun m A_i =>
        let no := A_i.shape.headD 0
        let rows_to_keep := (List.range no).filter fun l => l ∉ obsLs.getD m []
        ix_slice A_i (rows_to_keep :: columns_to_keep_list)
      let evs := (List.range As.length).map PruneEvent.sliced
      if dirichlet = false then
        (evs ++ [PruneEvent.renormalized 0], .ok (ARes.objArr (reduced.map norm_dist_col)))
      else
        (evs, .error (PyErr.notImplementedError prune_A_msg))
  | .single a, .flat obsF, .flat stF =>
      let num_states := a.shape.getD 1 0
      let indices := (List.range num_states).filter fun l => l ∉ stF
      let no := a.shape.headD 0
      let rows_to_keep := (List.range no).filter fun l => l ∉ obsF
      let reduced := ix_slice a [rows_to_keep, indices]
      if dirichlet = false then
        ([PruneEvent.sliced 0, PruneEvent.renormalized 0], .ok (ARes.single (norm_dist_col reduced)))
      else
        ([PruneEvent.sliced 0], .error (PyErr.notImplementedError prune_A_msg))
  | .objArr _, .flat _, _ => ([], .error PyErr.assertionError)
  | _, _, _ => ([], .error PyErr.typeError)

/-- Default (empty) real array. -/
def ndr0 : NDArray ℝ := ⟨[], []⟩

/-- The additive floor `1e-16` of the stabilized logarithm (spec
section 4.1). -/
noncomputable def EPS_VAL : ℝ := 1 / 10 ^ 16

/-- Modelled from the spec: `pymdp.maths.spm_log_single` is not under
`src/`.  Spec section 4.1, `logStable`: elementwise natural log with the
small additive floor `EPS_VAL`. -/
noncomputable def spm_log_single (a : NDArray ℝ) : NDArray ℝ :=
  ⟨a.shape, a.data.map fun x => Real.log (x + EPS_VAL)⟩

/-- Modelled from the spec: `pymdp.maths.spm_log_obj_array` is not under
`src/`: the stabilized log applied to every vector of an object array. -/
noncomputable def spm_log_obj_array (ps : List (List ℝ)) : List (List ℝ) :=
  ps.map fun p => p.map fun x => Real.log (x + EPS_VAL)

/-- Modelled from the spec: `pymdp.utils.obj_array_uniform` is not under
`src/`.  Spec section 4.4 step 2 and section 3: the uniform distribution
over each factor. -/
noncomputable def obj_array_uniform (num_states : List ℕ) : List (List ℝ) :=
  num_states.map fun ns => List.replicate ns (1 / (ns : ℝ))

/-- Modelled from the spec: `pymdp.utils.to_arr_of_arr` is not under
`src/`: wraps a single-factor belief vector into object-array form. -/
def to_arr_of_arr (v : List ℝ) : List (List ℝ) := [v]

/-- Row-major coordinates of flat position `i` in a tensor of the given
shape. -/
def coordsOf : List ℕ → ℕ → List ℕ
  | [], _ => []
  | d :: ds, i => (i / ds.prod) % d :: coordsOf ds (i % ds.prod)

/-- Modelled from the spec: `pymdp.maths.spm_dot` is not under `src/`.
Spec section 4.1, `contract(tensor, vectors, keepAxes)`: multiplies
`tensor` by each vector along all axes not in `keepAxes` and sums out
every non-kept axis, returning a tensor over only the kept axes.  (The
spec failure mode ShapeMismatch is outside the claims; shapes are assumed
consistent.) -/
noncomputable def contract (t : NDArray ℝ) (vecs : List (List ℝ)) (keep : List ℕ) : NDArray ℝ :=
  let outShape := keep.map fun ax => t.shape.getD ax 0
  ⟨outShape,
   (cartProd (outShape.map List.range)).map fun js =>
     ((List.range t.data.length).map fun i =>
        let cs := coordsOf t.shape i
        if keep.map (fun ax => cs.getD ax 0) = js then
          t.data.getD i 0 *
            (((List.range t.shape.length).filter fun ax => ax ∉ keep).map fun ax =>
              (vecs.getD ax []).getD (cs.getD ax 0) 0).prod
        else 0).sum⟩

/-- `spm_dot(X, x, dims_to_omit)` with `dims_to_omit` the indices of the
vectors in `x` omitted from the contraction: the kept axes of `contract`. -/
noncomputable def spm_dot (X : NDArray ℝ) (x : List (List ℝ)) (dims_to_omit : List ℕ) : List ℝ :=
  (contract X x dims_to_omit).data

/-- Modelled from the spec: `pymdp.maths.get_joint_likelihood` is not
under `src/`.  Spec section 4.2: per modality, contract `A[m]` against the
one-hot observation over the observation axis, then take the elementwise
product across modalities, giving one joint likelihood tensor of shape
`num_states` (the stabilized log is applied separately by the caller). -/
noncomputable def get_joint_likelihood (A : List (NDArray ℝ)) (obs : List (List ℝ))
    (num_states : List ℕ) : NDArray ℝ :=
  let b := num_states.prod
  let contracted := List.zipWith
    (fun Am om => (List.range b).map fun j =>
      ((List.range om.length).map fun i => om.getD i 0 * Am.data.getD (i * b + j) 0).sum)
    A obs
  ⟨num_states, contracted.foldl (List.zipWith (· * ·)) (List.replicate b 1)⟩

/-- Modelled from the spec: `pymdp.maths.softmax` is not under `src/`.
Spec section 4.1: subtract the max before exponentiating, then divide by
the sum. -/
noncomputable def softmax (x : List ℝ) : List ℝ :=
  let m := x.foldl max (x.headD 0)
  let e := x.map fun y => Real.exp (y - m)
  e.map fun y => y / e.sum

/-- Modelled from the spec: `pymdp.maths.calc_free_energy` is not under
`src/`.  Spec section 4.3: `F = sum_f (qs[f] . log qs[f] - qs[f] . logPrior[f])`
minus, when a likelihood is given, the expected log-likelihood
`outer(qs) . jointLogLikelihood`. -/
noncomputable def calc_free_energy (qs prior : List (List ℝ)) (n_factors : ℕ)
    (likelihood : Option (NDArray ℝ)) : ℝ :=
  let complexity := ((List.range n_factors).map fun f =>
    (List.zipWith (· * ·) (qs.getD f []) ((qs.getD f []).map Real.log)).sum -
      (List.zipWith (· * ·) (qs.getD f []) (prior.getD f [])).sum).sum
  match likelihood with
  | none => complexity
  | some L => complexity -
      (List.zipWith (· * ·) ((qs.drop 1).foldl crossData (qs.headD [])) L.data).sum

/-- `np.einsum(LL_tensor, list(range(n_factors)), [factor])`: sum the
flattened tensor over every axis except `f`. -/
noncomputable def margAxis (shape : List ℕ) (data : List ℝ) (f : ℕ) : List ℝ :=
  (List.range (shape.getD f 0)).map fun j =>
    (((List.range data.length).filter fun i => (coordsOf shape i).getD f 0 = j).map
      fun i => data.getD i 0).sum

/-- One pass of the multi-factor loop of `run_vanilla_fpi` (`fpi.py`
lines 119-127): build `qs_all` as the outer product of all current
marginals, multiply it into the likelihood to get `LL_tensor`, then for
each factor marginalize `LL_tensor` onto that factor's axis, divide out
the factor's own (pre-pass) marginal and apply
`softmax(qL + prior[factor])`.  Within the pass every factor reads only
`LL_tensor` (fixed at pass start) and its own old marginal, so the
sequential in-place assignments of the source are a per-factor map. -/
noncomputable def fpi_body (likelihood : NDArray ℝ) (prior : List (List ℝ))
    (qs : List (List ℝ)) : List (List ℝ) :=
  let qs_all := (qs.drop 1).foldl crossData (qs.headD [])
  let LL_tensor := List.zipWith (· * ·) likelihood.data qs_all
  qs.mapIdx fun factor qs_i =>
    let qL := List.zipWith (· / ·) (margAxis likelihood.shape LL_tensor factor) qs_i
    softmax (List.zipWith (· + ·) qL (prior.getD factor []))

/-- The multi-factor FPI loop of `run_vanilla_fpi` (`fpi.py` lines
110-149): `while curr_iter < num_iter and dF >= dF_tol`, run a pass,
recompute the free energy, set `dF = |prev_vfe - vfe|` and increment
`curr_iter`.  Returns the final marginals together with the final value of
`curr_iter` (the number of passes executed when started at 0). -/
noncomputable def fpi_loop (likelihood : NDArray ℝ) (prior : List (List ℝ))
    (n_factors num_iter : ℕ) (dF_tol : ℝ) (curr_iter : ℕ) (qs : List (List ℝ))
    (dF prev_vfe : ℝ) : List (List ℝ) × ℕ :=
  if h : curr_iter < num_iter ∧ dF_tol ≤ dF then
    let qs1 := fpi_body likelihood prior qs
    let vfe := calc_free_energy qs1 prior n_factors (some likelihood)
    fpi_loop likelihood prior n_factors num_iter dF_tol (curr_iter + 1) qs1
      (|prev_vfe - vfe|) vfe
  else (qs, curr_iter)
termination_by num_iter - curr_iter
decreasing_by obtain ⟨h1, h2⟩ := h; omega

/-- NameError message for `fpi.py` line 52. -/
def name_error_msg : String := "NameError: name num_observations is not defined"

/-- `fpi.py` line 52 is `n_modalities = len(num_observations)`, but the
function parameter is named `num_obs` and no `num_observations` is in
scope (the imports bring in none), so evaluating the right-hand side
raises `NameError` before anything else in the function body runs. -/
def lookup_num_observations : Except String (List ℕ) := Except.error name_error_msg

/-- `fpi.py` lines 15-149, `run_vanilla_fpi(A, obs, num_obs, num_states,
prior, num_iter, dF, dF_tol)` (Python defaults: `prior=None`,
`num_iter=10`, `dF=1.0`, `dF_tol=0.001`).  The body first evaluates line
52, which raises `NameError`; the remainder of the translation mirrors
lines 53-149 and is unreachable. -/
noncomputable def run_vanilla_fpi (A : List (NDArray ℝ)) (obs : List (List ℝ))
    (num_obs num_states : List ℕ) (prior : Option (List (List ℝ)))
    (num_iter : ℕ) (dF dF_tol : ℝ) : Except String (List (List ℝ)) :=
  lookup_num_observations.bind fun num_observations =>
  let _n_modalities := num_observations.length
  let n_factors := num_states.length
  let likelihood := spm_log_single (get_joint_likelihood A obs num_states)
  let qs := num_states.map fun ns => List.replicate ns (1 / (ns : ℝ))
  let prior1 := spm_log_obj_array (prior.getD (obj_array_uniform num_states))
  let prev_vfe := calc_free_energy qs prior1 n_factors none
  if n_factors = 1 then
    Except.ok (to_arr_of_arr (softmax
      (List.zipWith (· + ·) (spm_dot likelihood qs [0]) (prior1.getD 0 []))))
  else
    Except.ok (fpi_loop likelihood prior1 n_factors num_iter dF_tol 0 qs dF prev_vfe).1

/-- `inference.py` lines 17-22: the module-level method identifiers. -/
def FPI : String := "FPI"

/-- Method identifier `VMP` (`inference.py` line 18). -/
def VMP : String := "VMP"

/-- Method identifier `MMP` (`inference.py` line 19). -/
def MMP : String := "MMP"

/-- Method identifier `BP` (`inference.py` line 20). -/
def BP : String := "BP"

/-- Method identifier `EP` (`inference.py` line 21). -/
def EP : String := "EP"

/-- Method identifier `CV` (`inference.py` line 22). -/
def CV : String := "CV"

/-- Observation likelihood argument of `update_posterior_states`: an
object array of per-modality tensors or one plain tensor (the
`Categorical` wrapper form is converted away by the out-of-scope
`utils.to_numpy` before the dimensions are read). -/
inductive AInput
  | objArr (As : List (NDArray ℝ))
  | single (a : NDArray ℝ)

/-- Observation argument of `update_posterior_states`
(`inference.py` lines 106-132): a 1-D array, an observation index, a tuple
of indices, or an object array of 1-D arrays. -/
inductive ObsIn
  | vec (v : List ℝ)
  | index (i : ℕ)
  | tup (ts : List ℕ)
  | objArr (vs : List (List ℝ))

/-- One-hot vector over `ℝ` (`np.eye(n)[i]`). -/
def one_hot_r (n i : ℕ) : List ℝ :=
  (List.range n).map fun j => if j = i then 1 else 0

/-- `inference.py` lines 106-132, `process_observations(obs, n_modalities,
n_observations)`: an `int` becomes the one-hot `np.eye(n_observations[0])[obs]`,
a tuple becomes an object array of per-modality one-hots, anything else
passes through.  (The `Categorical` branch is handled by out-of-scope
wrapper code.) -/
def process_observations (obs : ObsIn) (n_modalities : ℕ)
    (n_observations : List ℕ) : ObsIn :=
  match obs with
  | .index i => .vec (one_hot_r (n_observations.getD 0 0) i)
  | .tup ts => .objArr ((List.range n_modalities).map fun m =>
      one_hot_r (n_observations.getD m 0) (ts.getD m 0))
  | o => o

/-- Prior argument of `update_posterior_states`: a plain vector or an
object array of per-factor vectors. -/
inductive PriorUPS
  | vec (p : List ℝ)
  | objArr (ps : List (List ℝ))

/-- `inference.py` lines 135-153, `process_priors`: a prior that is not
already an array of arrays is wrapped by `to_arr_of_arr` (the
`Categorical` branch is out-of-scope wrapper code). -/
def process_priors (prior : PriorUPS) (_n_factors : ℕ) : PriorUPS :=
  match prior with
  | .vec p => .objArr [p]
  | o => o

/-- Dimension collection of `update_posterior_states` (`inference.py`
lines 67-79): `(n_factors, n_states, n_modalities, n_observations)`. -/
def collect_dims : AInput → ℕ × List ℕ × ℕ × List ℕ
  | .objArr As =>
      ((As.headD ndr0).shape.length - 1, (As.headD ndr0).shape.drop 1, As.length,
        As.map fun a => a.shape.headD 0)
  | .single a => (a.shape.length - 1, a.shape.drop 1, 1, [a.shape.headD 0])

/-- The per-modality list of likelihood tensors passed on to `run_fpi`. -/
def modalities_of : AInput → List (NDArray ℝ)
  | .objArr As => As
  | .single a => [a]

/-- The per-modality one-hot list form of a processed observation. -/
def obs_vecs : ObsIn → List (List ℝ)
  | .vec v => [v]
  | .objArr vs => vs
  | _ => []

/-- The per-factor vector list form of a processed prior. -/
def prior_vecs : PriorUPS → List (List ℝ)
  | .vec p => [p]
  | .objArr ps => ps

/-- Modelled from the spec: `inferactively.core.algos.run_fpi` is not
under `src/`.  Spec section 4.4: joint log-likelihood, uniform
initialization, the single-factor shortcut
`softmax(L + logPrior[0])`, and otherwise the multi-factor loop — the
same algorithm as `run_vanilla_fpi` after its line 52. -/
noncomputable def run_fpi (A : List (NDArray ℝ)) (obs : List (List ℝ))
    (num_obs num_states : List ℕ) (prior : Option (List (List ℝ)))
    (num_iter : ℕ) (dF dF_tol : ℝ) : List (List ℝ) :=
  let _n_modalities := num_obs.length
  let n_factors := num_states.length
  let likelihood := spm_log_single (get_joint_likelihood A obs num_states)
  let qs := num_states.map fun ns => List.replicate ns (1 / (ns : ℝ))
  let prior1 := spm_log_obj_array (prior.getD (obj_array_uniform num_states))
  let prev_vfe := calc_free_energy qs prior1 n_factors none
  if n_factors = 1 then
    to_arr_of_arr (softmax
      (List.zipWith (· + ·) (spm_dot likelihood qs [0]) (prior1.getD 0 [])))
  else
    (fpi_loop likelihood prior1 n_factors num_iter dF_tol 0 qs dF prev_vfe).1

/-- The `Categorical` wrapper (out-of-scope collaborator): holds the
belief values. -/
structure Categorical where
  values : List (List ℝ)

/-- Modelled from the spec: `utils.to_categorical` is out-of-scope
wrapper conversion (spec section 1): wraps the numpy beliefs. -/
def to_categorical (qs : List (List ℝ)) : Categorical := ⟨qs⟩

/-- Return value of `update_posterior_states`: numpy beliefs or the
`Categorical` wrapper, depending on `return_numpy`. -/
inductive QsOut
  | np (qs : List (List ℝ))
  | cat (c : Categorical)

/-- `inference.py` lines 25-103, `update_posterior_states(A, obs, prior,
return_numpy, method)` (Python defaults: `prior=None`, `return_numpy=True`,
`method=FPI`): collect dimensions, format the observation and prior, then
dispatch on `method`; `FPI` runs `run_fpi` (with its own defaults
`num_iter=10`, `dF=1.0`, `dF_tol=0.001`), each of `VMP`, `MMP`, `BP`,
`EP`, `CV` raises `NotImplementedError`, and anything else raises
`ValueError`.  (`method is FPI` compares the interned module constants;
for these identifiers it acts as string equality.) -/
noncomputable def update_posterior_states (A : AInput) (obs : ObsIn)
    (prior : Option PriorUPS) (return_numpy : Bool) (method : String) :
    Except PyErr QsOut :=
  let dims := collect_dims A
  let n_factors := dims.1
  let n_states := dims.2.1
  let n_modalities := dims.2.2.1
  let n_observations := dims.2.2.2
  let obs1 := process_observations obs n_modalities n_observations
  let prior1 := (prior.map fun p => process_priors p n_factors).map prior_vecs
  if method = FPI then
    let qs := run_fpi (modalities_of A) (obs_vecs obs1) n_observations n_states
      prior1 10 1 (1 / 1000)
    if return_numpy then Except.ok (QsOut.np qs)
    else Except.ok (QsOut.cat (to_categorical qs))
  else if method = VMP then
    Except.error (PyErr.notImplementedError (VMP ++ " is not implemented"))
  else if method = MMP then
    Except.error (PyErr.notImplementedError (MMP ++ " is not implemented"))
  else if method = BP then
    Except.error (PyErr.notImplementedError (BP ++ " is not implemented"))
  else if method = EP then
    Except.error (PyErr.notImplementedError (EP ++ " is not implemented"))
  else if method = CV then
    Except.error (PyErr.notImplementedError (CV ++ " is not implemented"))
  else
    Except.error (PyErr.valueError (method ++ " is not implemented"))

/-! Generic list lemmas used by several of the claim proofs. -/

theorem getD_set_ne {α : Type} (l : List α) (i j : ℕ) (a d : α) (h : i ≠ j) :
    (l.set i a).getD j d = l.getD j d := by
  simp [List.getD_eq_getElem?_getD, List.getElem?_set_ne h]

theorem getD_set_self {α : Type} (l : List α) (i : ℕ) (a d : α) (h : i < l.length) :
    (l.set i a).getD i d = a := by
  simp [List.getD_eq_getElem?_getD, List.getElem?_set_self h]

theorem set_getD_self {α : Type} : ∀ (l : List α) (i : ℕ) (d : α), l.set i (l.getD i d) = l := by
  intro l
  induction l with
  | nil => intro i d; rfl
  | cons x xs ih =>
    intro i d
    cases i with
    | zero => rfl
    | succ n =>
      show x :: xs.set n (xs.getD n d) = x :: xs
      rw [ih n d]

theorem getD_zipWith {α β γ : Type} (f : α → β → γ) (a : List α) (b : List β)
    (i : ℕ) (da : α) (db : β) (dg : γ) (h1 : i < a.length) (h2 : i < b.length) :
    (List.zipWith f a b).getD i dg = f (a.getD i da) (b.getD i db) := by
  have hl : i < (List.zipWith f a b).length := by
    rw [List.length_zipWith]; exact lt_min h1 h2
  rw [List.getD_eq_getElem _ _ hl, List.getD_eq_getElem _ _ h1,
    List.getD_eq_getElem _ _ h2, List.getElem_zipWith]

theorem getD_map {α β : Type} (f : α → β) (l : List α) (i : ℕ) (da : α) (db : β)
    (h : i < l.length) : (l.map f).getD i db = f (l.getD i da) := by
  rw [List.getD_eq_getElem _ db (by rw [List.length_map]; exact h),
    List.getD_eq_getElem _ _ h, List.getElem_map]

theorem getD_range (n i d : ℕ) (h : i < n) : (List.range n).getD i d = i := by
  rw [List.getD_eq_getElem _ _ (by simpa using h), List.getElem_range]

theorem set_fold_length {α : Type} (d : α) (u : ℕ → α → α) :
    ∀ (l : List ℕ) (xs : List α), (set_fold d u l xs).length = xs.length := by
  intro l
  induction l with
  | nil => intro xs; rfl
  | cons a t ih =>
    intro xs
    show (set_fold d u t (xs.set a (u a (xs.getD a d)))).length = xs.length
    rw [ih, List.length_set]

theorem set_fold_getD_not_mem {α : Type} (d : α) (u : ℕ → α → α) :
    ∀ (l : List ℕ) (xs : List α) (j : ℕ), j ∉ l →
      (set_fold d u l xs).getD j d = xs.getD j d := by
  intro l
  induction l with
  | nil => intro xs j _; rfl
  | cons a t ih =>
    intro xs j hj
    have h1 : j ≠ a := fun h => hj (by simp [h])
    have h2 : j ∉ t := fun h => hj (List.mem_cons_of_mem _ h)
    show (set_fold d u t (xs.set a (u a (xs.getD a d)))).getD j d = xs.getD j d
    rw [ih _ j h2, getD_set_ne _ _ _ _ _ (Ne.symm h1)]

theorem set_fold_getD_mem {α : Type} (d : α) (u : ℕ → α → α) :
    ∀ (l : List ℕ) (xs : List α) (j : ℕ), l.Nodup → j ∈ l → j < xs.length →
      (set_fold d u l xs).getD j d = u j (xs.getD j d) := by
  intro l
  induction l with
  | nil => intro xs j _ hj _; exact absurd hj (List.not_mem_nil j)
  | cons a t ih =>
    intro xs j hnd hj hlt
    show (set_fold d u t (xs.set a (u a (xs.getD a d)))).getD j d = u j (xs.getD j d)
    rcases List.mem_cons.mp hj with rfl | hjt
    · have hat : j ∉ t := (List.nodup_cons.mp hnd).1
      rw [set_fold_getD_not_mem d u t _ j hat, getD_set_self _ _ _ _ hlt]
    · by_cases hja : j = a
      · subst hja; exact absurd hjt (List.nodup_cons.mp hnd).1
      · rw [ih _ j (List.nodup_cons.mp hnd).2 hjt (by rw [List.length_set]; exact hlt),
          getD_set_ne _ _ _ _ _ (fun h => hja h.symm)]

theorem set_fold_id {α : Type} (d : α) (u : ℕ → α → α) :
    ∀ (l : List ℕ) (xs : List α), (∀ m ∈ l, u m (xs.getD m d) = xs.getD m d) →
      set_fold d u l xs = xs := by
  intro l
  induction l with
  | nil => intro xs _; rfl
  | cons a t ih =>
    intro xs h
    show set_fold d u t (xs.set a (u a (xs.getD a d))) = xs
    rw [h a (List.mem_cons_self a t), set_getD_self,
      ih xs (fun m hm => h m (List.mem_cons_of_mem _ hm))]

/-! Claim theorems. -/

/-- C1: the claimed behaviour (return `softmax(L + logPrior[0])`
immediately, `[0.9, 0.1]` at the concrete 2-state model) does not occur:
line 52 of `fpi.py` evaluates the undefined name `num_observations` (the
parameter is `num_obs`), so the concrete call of the claim — `A =
[[0.9, 0.1], [0.1, 0.9]]`, observation one-hot(0), `num_obs = [2]`,
`num_states = [2]`, default prior and the Python default arguments —
raises `NameError` before any computation. -/
theorem run_vanilla_fpi_raises_name_error :
    run_vanilla_fpi [⟨[2, 2], [9/10, 1/10, 1/10, 9/10]⟩] [[1, 0]] [2] [2] none 10 1 (1/1000)
      = Except.error name_error_msg := rfl

theorem fpi_loop_counter_le (likelihood : NDArray ℝ) (prior : List (List ℝ))
    (n_factors num_iter : ℕ) (dF_tol : ℝ) :
    ∀ (k curr_iter : ℕ) (qs : List (List ℝ)) (dF prev_vfe : ℝ),
      num_iter - curr_iter ≤ k → curr_iter ≤ num_iter →
      (fpi_loop likelihood prior n_factors num_iter dF_tol curr_iter qs dF prev_vfe).2
        ≤ num_iter := by
  intro k
  induction k with
  | zero =>
    intro ci qs dF pv hk hle
    rw [fpi_loop]
    rw [dif_neg (fun hc : ci < num_iter ∧ dF_tol ≤ dF => by omega)]
    exact hle
  | succ k ih =>
    intro ci qs dF pv hk hle
    rw [fpi_loop]
    split
    · next h =>
      obtain ⟨h1, _⟩ := h
      exact ih (ci + 1) _ _ _ (by omega) (by omega)
    · exact hle

/-- C2: the multi-factor loop of `run_vanilla_fpi` (its translation
`fpi_loop`, entered with `curr_iter = 0`) runs while
`curr_iter < num_iter` and `dF_tol ≤ dF`, and for every likelihood, prior,
factor count, tolerance and initial `dF`/free-energy seed it returns after
at most `num_iter` passes — the final iteration counter never exceeds
`num_iter`, with no early exit on divergence and no possibility of an
infinite loop. -/
theorem fpi_loop_executes_at_most_num_iter (likelihood : NDArray ℝ)
    (prior : List (List ℝ)) (n_factors num_iter : ℕ) (dF_tol : ℝ)
    (qs : List (List ℝ)) (dF prev_vfe : ℝ) :
    (fpi_loop likelihood prior n_factors num_iter dF_tol 0 qs dF prev_vfe).2 ≤ num_iter :=
  fpi_loop_counter_le likelihood prior n_factors num_iter dF_tol num_iter 0 qs dF prev_vfe
    (by omega) (by omega)

/-- C3: for each of the five non-FPI identifiers VMP, MMP, BP, EP and CV,
`update_posterior_states` accepts the identifier and returns the explicit
`NotImplementedError` whose message is "(method) is not implemented",
for every model, observation, prior and output flag — it never computes a
posterior for these methods and never falls back to the FPI branch. -/
theorem update_posterior_states_not_implemented (method : String)
    (h : method ∈ [VMP, MMP, BP, EP, CV]) (A : AInput) (obs : ObsIn)
    (prior : Option PriorUPS) (return_numpy : Bool) :
    update_posterior_states A obs prior return_numpy method =
      Except.error (PyErr.notImplementedError (method ++ " is not implemented")) := by
  fin_cases h <;> simp [update_posterior_states, FPI, VMP, MMP, BP, EP, CV]

/-- Witness for C3 at `method = VMP` on a concrete model. -/
theorem update_posterior_states_not_implemented_witness :
    update_posterior_states (.single ⟨[2, 2], [1, 0, 0, 1]⟩) (.index 0) none true VMP =
      Except.error (PyErr.notImplementedError (VMP ++ " is not implemented")) :=
  update_posterior_states_not_implemented VMP (by simp) _ _ _ _

/-- C10: for every method identifier outside the six module constants,
`update_posterior_states` raises `ValueError` — it neither defaults to
fixed-point iteration nor returns a posterior. -/
theorem update_posterior_states_value_error (method : String)
    (h : method ∉ [FPI, VMP, MMP, BP, EP, CV]) (A : AInput) (obs : ObsIn)
    (prior : Option PriorUPS) (return_numpy : Bool) :
    update_posterior_states A obs prior return_numpy method =
      Except.error (PyErr.valueError (method ++ " is not implemented")) := by
  simp only [List.mem_cons, List.not_mem_nil, or_false, not_or] at h
  obtain ⟨h1, h2, h3, h4, h5, h6⟩ := h
  simp [update_posterior_states, h1, h2, h3, h4, h5, h6]

/-- Witness for C10 at the unrecognized identifier `"XY"`. -/
theorem update_posterior_states_value_error_witness :
    update_posterior_states (.single ⟨[2, 2], [1, 0, 0, 1]⟩) (.index 0) none true "XY" =
      Except.error (PyErr.valueError ("XY" ++ " is not implemented")) :=
  update_posterior_states_value_error "XY" (by decide) _ _ _ _

theorem update_obs_modality_getD (p a : NDArray ℚ) (o : List ℚ) (qs : List (List ℚ))
    (lr : ℚ) (i : ℕ) (hi : i < p.data.length)
    (h1 : (spm_cross o qs).data.length = p.data.length)
    (h2 : a.data.length = p.data.length)
    (hpos : ∀ k < a.data.length, 0 ≤ a.data.getD k 0) :
    (update_obs_modality p a o qs lr).data.getD i 0 =
      p.data.getD i 0 +
        lr * (if a.data.getD i 0 = 0 then 0 else (spm_cross o qs).data.getD i 0) := by
  unfold update_obs_modality
  have hm : (List.zipWith (fun d a2 => d * (if 0 < a2 then (1 : ℚ) else 0))
      (spm_cross o qs).data a.data).length = p.data.length := by
    rw [List.length_zipWith, h1, h2, min_self]
  rw [getD_zipWith _ _ _ i 0 0 0 hi (by rw [List.length_map, hm]; exact hi)]
  rw [getD_map _ _ i 0 0 (by rw [hm]; exact hi)]
  rw [getD_zipWith _ _ _ i 0 0 0 (by rw [h1]; exact hi) (by rw [h2]; exact hi)]
  by_cases hz : a.data.getD i 0 = 0
  · rw [if_pos hz, hz]
    norm_num
  · rw [if_neg hz,
      if_pos (lt_of_le_of_ne (hpos i (by rw [h2]; exact hi)) (Ne.symm hz)), mul_one]

theorem update_obs_modality_shape (p a : NDArray ℚ) (o : List ℚ) (qs : List (List ℚ))
    (lr : ℚ) : (update_obs_modality p a o qs lr).shape = p.shape := rfl

/-- C4: for every call of `update_obs_likelihood_dirichlet` with
duplicate-free in-range modality selection, non-negative `A` and
shape-consistent inputs, every selected modality `m` of the result equals
`pA[m] + lr * delta` entrywise, where `delta` is the outer product
`spm_cross(obs[m], qs)` of the processed one-hot observation with every
factor belief, masked to exactly zero wherever `A[m]` is exactly zero;
every non-selected modality equals `pA[m]` exactly; and the function is
pure (the translation of `copy.deepcopy(pA)`), so `pA` itself is
untouched. -/
theorem update_obs_likelihood_dirichlet_spec (pA A : List (NDArray ℚ)) (obs : ObsInput)
    (qs : List (List ℚ)) (lr : ℚ) (modalities : Option (List ℕ))
    (hnd : (effective_idxs pA.length modalities).Nodup)
    (hb : ∀ m ∈ effective_idxs pA.length modalities, m < pA.length)
    (hlen : ∀ m ∈ effective_idxs pA.length modalities,
      (spm_cross ((process_observation obs pA.length (pA.map fun a2 => a2.shape.headD 0)).getD m [])
          qs).data.length = (pA.getD m nd0).data.length ∧
        (A.getD m nd0).data.length = (pA.getD m nd0).data.length)
    (hpos : ∀ m ∈ effective_idxs pA.length modalities,
      ∀ k < (A.getD m nd0).data.length, 0 ≤ (A.getD m nd0).data.getD k 0) :
    (∀ m ∈ effective_idxs pA.length modalities,
      ((update_obs_likelihood_dirichlet pA A obs qs lr modalities).getD m nd0).shape
          = (pA.getD m nd0).shape ∧
        ∀ i < (pA.getD m nd0).data.length,
          ((update_obs_likelihood_dirichlet pA A obs qs lr modalities).getD m nd0).data.getD i 0
            = (pA.getD m nd0).data.getD i 0 +
                lr * (if (A.getD m nd0).data.getD i 0 = 0 then 0
                  else (spm_cross
                    ((process_observation obs pA.length (pA.map fun a2 => a2.shape.headD 0)).getD m [])
                    qs).data.getD i 0)) ∧
    (∀ m, m ∉ effective_idxs pA.length modalities →
      (update_obs_likelihood_dirichlet pA A obs qs lr modalities).getD m nd0 = pA.getD m nd0) ∧
    (update_obs_likelihood_dirichlet pA A obs qs lr modalities).length = pA.length := by
  refine ⟨fun m hm => ?_, fun m hm => ?_, ?_⟩
  · have e1 : (update_obs_likelihood_dirichlet pA A obs qs lr modalities).getD m nd0 =
        update_obs_modality (pA.getD m nd0) (A.getD m nd0)
          ((process_observation obs pA.length (pA.map fun a2 => a2.shape.headD 0)).getD m [])
          qs lr := by
      show (set_fold nd0
          (fun modality qAm => update_obs_modality qAm (A.getD modality nd0)
            ((process_observation obs pA.length (pA.map fun a => a.shape.headD 0)).getD modality []) qs lr)
          (effective_idxs pA.length modalities) pA).getD m nd0 = _
      exact set_fold_getD_mem _ _ _ _ _ hnd hm (hb m hm)
    rw [e1]
    exact ⟨update_obs_modality_shape _ _ _ _ _,
      fun i hi => update_obs_modality_getD _ _ _ _ _ i hi (hlen m hm).1 (hlen m hm).2 (hpos m hm)⟩
  · show (set_fold nd0
        (fun modality qAm => update_obs_modality qAm (A.getD modality nd0)
          ((process_observation obs pA.length (pA.map fun a => a.shape.headD 0)).getD modality []) qs lr)
        (effective_idxs pA.length modalities) pA).getD m nd0 = pA.getD m nd0
    exact set_fold_getD_not_mem _ _ _ _ _ hm
  · show (set_fold nd0
        (fun modality qAm => update_obs_modality qAm (A.getD modality nd0)
          ((process_observation obs pA.length (pA.map fun a => a.shape.headD 0)).getD modality []) qs lr)
        (effective_idxs pA.length modalities) pA).length = pA.length
    exact set_fold_length _ _ _ _

/-- Witness for C4: a concrete one-modality model (`pA = [[0,1],[1,1]]`
shaped 2 x 2, `A = [[2,1],[1,0]]` with a structural zero at the last
entry, observation one-hot(0), `qs = [[1,1]]`, `lr = 2`): the first
updated entry is `0 + 2 * 1 = 2`. -/
theorem update_obs_likelihood_dirichlet_spec_witness :
    ((update_obs_likelihood_dirichlet [⟨[2, 2], [0, 1, 1, 1]⟩]
        [⟨[2, 2], [2, 1, 1, 0]⟩] (.onehot [1, 0]) [[1, 1]] 2
        (some [0])).getD 0 nd0).data.getD 0 0 = 2 := by
  rw [((update_obs_likelihood_dirichlet_spec [⟨[2, 2], [0, 1, 1, 1]⟩]
      [⟨[2, 2], [2, 1, 1, 0]⟩] (.onehot [1, 0]) [[1, 1]] 2 (some [0])
      (by decide) (by decide) (by decide) (by decide)).1 0 (by decide)).2 0 (by decide)]
  simp [spm_cross, crossData, process_observation, one_hot]

theorem zipWith_add_zero_mul (xs ys : List ℚ) (h : xs.length ≤ ys.length) :
    List.zipWith (· + ·) xs (ys.map fun x => 0 * x) = xs := by
  induction xs generalizing ys with
  | nil => rfl
  | cons x xs ih =>
    cases ys with
    | nil => simp at h
    | cons y ys =>
      show (x + 0 * y) :: List.zipWith (· + ·) xs (ys.map fun x => 0 * x) = x :: xs
      rw [zero_mul, add_zero, ih ys (by simpa using h)]

theorem update_obs_modality_lr_zero (p a : NDArray ℚ) (o : List ℚ) (qs : List (List ℚ))
    (h1 : p.data.length ≤ (spm_cross o qs).data.length)
    (h2 : p.data.length ≤ a.data.length) :
    update_obs_modality p a o qs 0 = p := by
  have hm : p.data.length ≤
      (List.zipWith (fun d a2 => d * (if 0 < a2 then (1 : ℚ) else 0))
        (spm_cross o qs).data a.data).length := by
    rw [List.length_zipWith]
    exact le_min h1 h2
  show NDArray.mk p.shape (List.zipWith (· + ·) p.data
    ((List.zipWith (fun d a2 => d * (if 0 < a2 then (1 : ℚ) else 0))
      (spm_cross o qs).data a.data).map fun x => 0 * x)) = p
  rw [zipWith_add_zero_mul _ _ hm]

/-- C5: `update_obs_likelihood_dirichlet` with `lr = 0` returns Dirichlet
parameters entrywise exactly equal to the input `pA`, for every `pA`, `A`,
observation, belief and modality selection whose shapes are consistent
(`pA[m]` no longer than the outer-product statistic and than `A[m]`, as
numpy element-wise arithmetic requires). -/
theorem update_obs_likelihood_dirichlet_lr_zero (pA A : List (NDArray ℚ)) (obs : ObsInput)
    (qs : List (List ℚ)) (modalities : Option (List ℕ))
    (hlen : ∀ m ∈ effective_idxs pA.length modalities,
      (pA.getD m nd0).data.length ≤
          (spm_cross ((process_observation obs pA.length (pA.map fun a2 => a2.shape.headD 0)).getD m [])
            qs).data.length ∧
        (pA.getD m nd0).data.length ≤ (A.getD m nd0).data.length) :
    update_obs_likelihood_dirichlet pA A obs qs 0 modalities = pA := by
  show set_fold nd0
      (fun modality qAm => update_obs_modality qAm (A.getD modality nd0)
        ((process_observation obs pA.length (pA.map fun a => a.shape.headD 0)).getD modality []) qs 0)
      (effective_idxs pA.length modalities) pA = pA
  exact set_fold_id _ _ _ _
    (fun m hm => update_obs_modality_lr_zero _ _ _ _ (hlen m hm).1 (hlen m hm).2)

/-- Witness for C5: a concrete one-modality call with `lr = 0` and the
default `"all"` selection returns `pA` exactly. -/
theorem update_obs_likelihood_dirichlet_lr_zero_witness :
    update_obs_likelihood_dirichlet [⟨[2, 2], [1, 2, 3, 4]⟩]
        [⟨[2, 2], [2, 1, 1, 0]⟩] (.onehot [1, 0]) [[1, 1]] 0 none
      = [⟨[2, 2], [1, 2, 3, 4]⟩] :=
  update_obs_likelihood_dirichlet_lr_zero [⟨[2, 2], [1, 2, 3, 4]⟩]
    [⟨[2, 2], [2, 1, 1, 0]⟩] (.onehot [1, 0]) [[1, 1]] none (by decide)

theorem update_prior_factor_getD (pDf qDf qsf : List ℚ) (lr : ℚ) (i : ℕ)
    (hi : i < qDf.length) :
    (update_prior_factor pDf qDf qsf lr).getD i 0 =
      if 0 < pDf.getD i 0 then qDf.getD i 0 + lr * qsf.getD i 0 else qDf.getD i 0 := by
  unfold update_prior_factor
  rw [getD_map _ _ i 0 0 (by simpa using hi), getD_range _ i 0 hi]

theorem update_prior_factor_length (pDf qDf qsf : List ℚ) (lr : ℚ) :
    (update_prior_factor pDf qDf qsf lr).length = qDf.length := by
  simp [update_prior_factor]

/-- C6: in `update_state_prior_dirichlet` (duplicate-free in-range factor
selection), each selected factor's entry `i` becomes
`pD[f][i] + lr * qs[f][i]` exactly when `pD[f][i] > 0` and is left at
`pD[f][i]` otherwise; non-selected factors are returned unchanged; and
every index at which `pD[f]` is exactly zero is exactly zero in the
returned `qD` — learning never creates new support. -/
theorem update_state_prior_dirichlet_spec (pD qs : List (List ℚ)) (lr : ℚ)
    (factors : Option (List ℕ))
    (hnd : (effective_idxs pD.length factors).Nodup)
    (hb : ∀ f ∈ effective_idxs pD.length factors, f < pD.length) :
    (∀ f ∈ effective_idxs pD.length factors, ∀ i < (pD.getD f []).length,
      ((update_state_prior_dirichlet pD qs lr factors).getD f []).getD i 0 =
        if 0 < (pD.getD f []).getD i 0
        then (pD.getD f []).getD i 0 + lr * (qs.getD f []).getD i 0
        else (pD.getD f []).getD i 0) ∧
    (∀ f, f ∉ effective_idxs pD.length factors →
      (update_state_prior_dirichlet pD qs lr factors).getD f [] = pD.getD f []) ∧
    (∀ f i, (pD.getD f []).getD i 0 = 0 →
      ((update_state_prior_dirichlet pD qs lr factors).getD f []).getD i 0 = 0) := by
  have hmem : ∀ f ∈ effective_idxs pD.length factors,
      (update_state_prior_dirichlet pD qs lr factors).getD f [] =
        update_prior_factor (pD.getD f []) (pD.getD f []) (qs.getD f []) lr := by
    intro f hf
    show (set_fold []
        (fun factor qDf => update_prior_factor (pD.getD factor []) qDf (qs.getD factor []) lr)
        (effective_idxs pD.length factors) pD).getD f [] = _
    exact set_fold_getD_mem _ _ _ _ _ hnd hf (hb f hf)
  have hnot : ∀ f, f ∉ effective_idxs pD.length factors →
      (update_state_prior_dirichlet pD qs lr factors).getD f [] = pD.getD f [] := by
    intro f hf
    show (set_fold []
        (fun factor qDf => update_prior_factor (pD.getD factor []) qDf (qs.getD factor []) lr)
        (effective_idxs pD.length factors) pD).getD f [] = pD.getD f []
    exact set_fold_getD_not_mem _ _ _ _ _ hf
  refine ⟨fun f hf i hi => ?_, hnot, fun f i hz => ?_⟩
  · rw [hmem f hf, update_prior_factor_getD _ _ _ _ i hi]
  · by_cases hf : f ∈ effective_idxs pD.length factors
    · rw [hmem f hf]
      by_cases hi : i < (pD.getD f []).length
      · rw [update_prior_factor_getD _ _ _ _ i hi, hz]
        norm_num
      · have hlen2 : (update_prior_factor (pD.getD f []) (pD.getD f []) (qs.getD f []) lr).length ≤ i := by
          rw [update_prior_factor_length]
          omega
        rw [List.getD_eq_getElem?_getD, List.getElem?_eq_none hlen2, Option.getD_none]
    · rw [hnot f hf]
      exact hz

/-- Witness for C6: concrete two-factor prior
`pD = [[1, 0], [3, 4]]` with `qs = [[1, 3], [1, 0]]`, `lr = 1`, all
factors selected: the zero-support entry of factor 0 stays exactly 0. -/
theorem update_state_prior_dirichlet_spec_witness :
    ((update_state_prior_dirichlet [[1, 0], [3, 4]] [[1, 3], [1, 0]] 1 none).getD 0 []).getD 1 0
      = 0 :=
  (update_state_prior_dirichlet_spec [[1, 0], [3, 4]] [[1, 3], [1, 0]] 1 none
    (by decide) (by decide)).2.2 0 1 (by decide)

theorem update_trans_factor_getD (qBf Bf : NDArray ℚ) (a : ℕ) (qsf qsp : List ℚ)
    (lr : ℚ) (p : ℕ) (hp : p < qBf.data.length) (hne : p % qBf.shape.getD 2 0 ≠ a) :
    (update_trans_factor qBf Bf a qsf qsp lr).data.getD p 0 = qBf.data.getD p 0 := by
  unfold update_trans_factor
  rw [getD_map _ _ p 0 0 (by simpa using hp), getD_range _ p 0 hp, if_neg hne, add_zero]

theorem update_trans_factor_shape (qBf Bf : NDArray ℚ) (a : ℕ) (qsf qsp : List ℚ)
    (lr : ℚ) : (update_trans_factor qBf Bf a qsf qsp lr).shape = qBf.shape := rfl

/-- C9: in `update_state_likelihood_dirichlet` (duplicate-free in-range
factor selection), every non-selected factor of the returned `qB` equals
the corresponding `pB[f]` exactly; for every selected factor, the shape is
preserved and every entry whose action coordinate (flat position mod the
action-axis size) differs from `actions[f]` is exactly the `pB[f]` entry —
only the `actions[f]` slice changes; the function is pure (the translation
of `copy.deepcopy(pB)`), so `pB` itself is untouched. -/
theorem update_state_likelihood_dirichlet_frame (pB B : List (NDArray ℚ))
    (actions : List ℕ) (qs qs_prev : List (List ℚ)) (lr : ℚ)
    (factors : Option (List ℕ))
    (hnd : (effective_idxs pB.length factors).Nodup)
    (hb : ∀ f ∈ effective_idxs pB.length factors, f < pB.length) :
    (∀ f, f ∉ effective_idxs pB.length factors →
      (update_state_likelihood_dirichlet pB B actions qs qs_prev lr factors).getD f nd0
        = pB.getD f nd0) ∧
    (∀ f ∈ effective_idxs pB.length factors,
      ((update_state_likelihood_dirichlet pB B actions qs qs_prev lr factors).getD f nd0).shape
          = (pB.getD f nd0).shape ∧
        ∀ p < (pB.getD f nd0).data.length,
          p % ((pB.getD f nd0).shape.getD 2 0) ≠ actions.getD f 0 →
            ((update_state_likelihood_dirichlet pB B actions qs qs_prev lr factors).getD f nd0).data.getD p 0
              = (pB.getD f nd0).data.getD p 0) ∧
    (update_state_likelihood_dirichlet pB B actions qs qs_prev lr factors).length
      = pB.length := by
  have hmem : ∀ f ∈ effective_idxs pB.length factors,
      (update_state_likelihood_dirichlet pB B actions qs qs_prev lr factors).getD f nd0 =
        update_trans_factor (pB.getD f nd0) (B.getD f nd0) (actions.getD f 0)
          (qs.getD f []) (qs_prev.getD f []) lr := by
    intro f hf
    show (set_fold nd0
        (fun factor qBf => update_trans_factor qBf (B.getD factor nd0) (actions.getD factor 0)
          (qs.getD factor []) (qs_prev.getD factor []) lr)
        (effective_idxs pB.length factors) pB).getD f nd0 = _
    exact set_fold_getD_mem _ _ _ _ _ hnd hf (hb f hf)
  refine ⟨fun f hf => ?_, fun f hf => ?_, ?_⟩
  · show (set_fold nd0
        (fun factor qBf => update_trans_factor qBf (B.getD factor nd0) (actions.getD factor 0)
          (qs.getD factor []) (qs_prev.getD factor []) lr)
        (effective_idxs pB.length factors) pB).getD f nd0 = pB.getD f nd0
    exact set_fold_getD_not_mem _ _ _ _ _ hf
  · rw [hmem f hf]
    exact ⟨update_trans_factor_shape _ _ _ _ _ _,
      fun p hp hne => update_trans_factor_getD _ _ _ _ _ _ p hp hne⟩
  · show (set_fold nd0
        (fun factor qBf => update_trans_factor qBf (B.getD factor nd0) (actions.getD factor 0)
          (qs.getD factor []) (qs_prev.getD factor []) lr)
        (effective_idxs pB.length factors) pB).length = pB.length
    exact set_fold_length _ _ _ _

/-- Witness for C9: a concrete one-factor transition model with shape
`[2, 2, 2]` and `actions = [1]`: the entry at flat position 0 (action
coordinate 0, not the selected action 1) keeps its `pB` value 5. -/
theorem update_state_likelihood_dirichlet_frame_witness :
    ((update_state_likelihood_dirichlet [⟨[2, 2, 2], [5, 6, 7, 8, 9, 10, 11, 12]⟩]
        [⟨[2, 2, 2], [1, 1, 1, 1, 1, 1, 1, 1]⟩] [1] [[1, 0]] [[0, 1]] 3
        (some [0])).getD 0 nd0).data.getD 0 0 = 5 := by
  rw [((update_state_likelihood_dirichlet_frame [⟨[2, 2, 2], [5, 6, 7, 8, 9, 10, 11, 12]⟩]
      [⟨[2, 2, 2], [1, 1, 1, 1, 1, 1, 1, 1]⟩] [1] [[1, 0]] [[0, 1]] 3 (some [0])
      (by decide) (by decide)).2.1 0 (by decide)).2 0 (by decide) (by decide)]
  decide

theorem prune_prior_factors_true (ls : List (List ℕ)) :
    ∀ (ps : List (List ℚ)) (f0 : ℕ),
      (∃ i, i < ps.length ∧ prune_keep ls (f0 + i) (ps.getD i []) ≠ []) →
        (prune_prior_factors true ls f0 ps).2
            = Except.error (PyErr.notImplementedError prune_prior_msg) ∧
          ∀ e ∈ (prune_prior_factors true ls f0 ps).1, ∃ g, e = PruneEvent.warning g := by
  intro ps
  induction ps with
  | nil =>
    rintro f0 ⟨i, hi, _⟩
    simp at hi
  | cons s rest ih =>
    rintro f0 ⟨i, hi, hk⟩
    by_cases hempty : prune_keep ls f0 s = []
    · have hstep : prune_prior_factors true ls f0 (s :: rest)
          = (PruneEvent.warning f0 :: (prune_prior_factors true ls (f0 + 1) rest).1,
             (prune_prior_factors true ls (f0 + 1) rest).2.map
               fun pr => (Option.none :: pr.1, f0 :: pr.2)) := by
        simp [prune_prior_factors, hempty]
      cases i with
      | zero => exact absurd hempty (by simpa using hk)
      | succ j =>
        have hj2 : j < rest.length := by simpa using hi
        have hk2 : prune_keep ls ((f0 + 1) + j) (rest.getD j []) ≠ [] := by
          have e : f0 + 1 + j = f0 + (j + 1) := by omega
          rw [e]
          simpa using hk
        obtain ⟨herr, hwarn⟩ := ih (f0 + 1) ⟨j, hj2, hk2⟩
        rw [hstep]
        constructor
        · show ((prune_prior_factors true ls (f0 + 1) rest).2.map
              fun pr => (Option.none :: pr.1, f0 :: pr.2)) = _
          rw [herr]
          rfl
        · intro e he
          rcases List.mem_cons.mp he with rfl | he2
          · exact ⟨f0, rfl⟩
          · exact hwarn e he2
    · have hstep : prune_prior_factors true ls f0 (s :: rest)
          = ([], Except.error (PyErr.notImplementedError prune_prior_msg)) := by
        simp [prune_prior_factors, hempty]
      rw [hstep]
      exact ⟨rfl, by simp⟩

theorem prune_prior_factors_false (ls : List (List ℕ)) :
    ∀ (ps : List (List ℚ)) (f0 : ℕ),
      prune_prior_factors false ls f0 ps =
        ((prune_prior_spec ls f0 ps).1,
         Except.ok ((prune_prior_spec ls f0 ps).2.1, (prune_prior_spec ls f0 ps).2.2)) := by
  intro ps
  induction ps with
  | nil => intro f0; rfl
  | cons s rest ih =>
    intro f0
    by_cases hempty : prune_keep ls f0 s = [] <;>
      simp [prune_prior_factors, prune_prior_spec, hempty, ih (f0 + 1), Except.map]

theorem prune_prior_spec_red_getD (ls : List (List ℕ)) :
    ∀ (ps : List (List ℚ)) (f0 g : ℕ), g < ps.length →
      (prune_prior_spec ls f0 ps).2.1.getD g none =
        if prune_keep ls (f0 + g) (ps.getD g []) = [] then none
        else some (norm_dist_vec ((prune_keep ls (f0 + g) (ps.getD g [])).map
          fun l => (ps.getD g []).getD l 0)) := by
  intro ps
  induction ps with
  | nil =>
    intro f0 g hg
    simp at hg
  | cons s rest ih =>
    intro f0 g hg
    cases g with
    | zero =>
      by_cases hempty : prune_keep ls f0 s = [] <;>
        simp [prune_prior_spec, hempty]
    | succ j =>
      have hj : j < rest.length := by simpa using hg
      have e : f0 + (j + 1) = (f0 + 1) + j := by omega
      rw [List.getD_cons_succ, e]
      by_cases hempty : prune_keep ls f0 s = []
      · rw [show (prune_prior_spec ls f0 (s :: rest)).2.1
            = Option.none :: (prune_prior_spec ls (f0 + 1) rest).2.1 by
          simp [prune_prior_spec, hempty]]
        rw [List.getD_cons_succ]
        exact ih (f0 + 1) j hj
      · rw [show (prune_prior_spec ls f0 (s :: rest)).2.1
            = Option.some (norm_dist_vec ((prune_keep ls f0 s).map fun l => s.getD l 0))
                :: (prune_prior_spec ls (f0 + 1) rest).2.1 by
          simp [prune_prior_spec, hempty]]
        rw [List.getD_cons_succ]
        exact ih (f0 + 1) j hj

theorem prune_prior_spec_rem_mem (ls : List (List ℕ)) :
    ∀ (ps : List (List ℚ)) (f0 g : ℕ),
      g ∈ (prune_prior_spec ls f0 ps).2.2 ↔
        ∃ i, i < ps.length ∧ g = f0 + i ∧ prune_keep ls (f0 + i) (ps.getD i []) = [] := by
  intro ps
  induction ps with
  | nil => intro f0 g; simp [prune_prior_spec]
  | cons s rest ih =>
    intro f0 g
    by_cases hempty : prune_keep ls f0 s = []
    · rw [show (prune_prior_spec ls f0 (s :: rest)).2.2
          = f0 :: (prune_prior_spec ls (f0 + 1) rest).2.2 by simp [prune_prior_spec, hempty]]
      constructor
      · intro hg
        rcases List.mem_cons.mp hg with rfl | hg2
        · exact ⟨0, by simp, by simp, by simpa using hempty⟩
        · obtain ⟨j, hj, hgj, hkj⟩ := (ih (f0 + 1) g).mp hg2
          refine ⟨j + 1, by simpa using hj, by omega, ?_⟩
          have e : f0 + (j + 1) = f0 + 1 + j := by omega
          rw [e]
          simpa using hkj
      · rintro ⟨i, hi, rfl, hki⟩
        cases i with
        | zero => simp
        | succ j =>
          refine List.mem_cons_of_mem _ ((ih (f0 + 1) _).mpr ⟨j, by simpa using hi, by omega, ?_⟩)
          have e : f0 + 1 + j = f0 + (j + 1) := by omega
          rw [e]
          simpa using hki
    · rw [show (prune_prior_spec ls f0 (s :: rest)).2.2
          = (prune_prior_spec ls (f0 + 1) rest).2.2 by simp [prune_prior_spec, hempty]]
      constructor
      · intro hg
        obtain ⟨j, hj, hgj, hkj⟩ := (ih (f0 + 1) g).mp hg
        refine ⟨j + 1, by simpa using hj, by omega, ?_⟩
        have e : f0 + (j + 1) = f0 + 1 + j := by omega
        rw [e]
        simpa using hkj
      · rintro ⟨i, hi, rfl, hki⟩
        cases i with
        | zero => exact absurd (by simpa using hki) hempty
        | succ j =>
          refine (ih (f0 + 1) _).mpr ⟨j, by simpa using hi, by omega, ?_⟩
          have e : f0 + 1 + j = f0 + (j + 1) := by omega
          rw [e]
          simpa using hki

theorem prune_prior_spec_warning_mem (ls : List (List ℕ)) :
    ∀ (ps : List (List ℚ)) (f0 i : ℕ), i < ps.length →
      prune_keep ls (f0 + i) (ps.getD i []) = [] →
        PruneEvent.warning (f0 + i) ∈ (prune_prior_spec ls f0 ps).1 := by
  intro ps
  induction ps with
  | nil =>
    intro f0 i hi
    simp at hi
  | cons s rest ih =>
    intro f0 i hi hk
    cases i with
    | zero =>
      have hempty : prune_keep ls f0 s = [] := by simpa using hk
      rw [show (prune_prior_spec ls f0 (s :: rest)).1
          = PruneEvent.warning f0 :: (prune_prior_spec ls (f0 + 1) rest).1 by
        simp [prune_prior_spec, hempty]]
      simp
    | succ j =>
      have hj : j < rest.length := by simpa using hi
      have hk2 : prune_keep ls ((f0 + 1) + j) (rest.getD j []) = [] := by
        have e : f0 + 1 + j = f0 + (j + 1) := by omega
        rw [e]
        simpa using hk
      have hmemtail := ih (f0 + 1) j hj hk2
      have e : f0 + (j + 1) = f0 + 1 + j := by omega
      rw [e]
      by_cases hempty : prune_keep ls f0 s = []
      · rw [show (prune_prior_spec ls f0 (s :: rest)).1
            = PruneEvent.warning f0 :: (prune_prior_spec ls (f0 + 1) rest).1 by
          simp [prune_prior_spec, hempty]]
        exact List.mem_cons_of_mem _ hmemtail
      · rw [show (prune_prior_spec ls f0 (s :: rest)).1
            = PruneEvent.sliced f0 :: PruneEvent.renormalized f0
                :: (prune_prior_spec ls (f0 + 1) rest).1 by
          simp [prune_prior_spec, hempty]]
        exact List.mem_cons_of_mem _ (List.mem_cons_of_mem _ hmemtail)

/-- Counterexample for C7: the claim "every Dirichlet-flag pruning call
fails with the NotImplementedError, raised before any partial
computation" is false on the code at two concrete inputs.  First,
`_prune_prior` on the object-array prior `[[1, 1]]` with every level of
its only factor removed and `dirichlet = True` does not fail at all: it
prints the warning and returns the empty factorization.  Second,
`_prune_A` on a 2 x 2 single-modality model with `dirichlet = True` does
fail, but only after performing the slicing of the surviving rows and
columns (the `sliced` event precedes the error in its trace). -/
theorem prune_dirichlet_counterexample :
    _prune_prior (.objArr [[1, 1]]) (.perFactor [[0, 1]]) true
        = ([PruneEvent.warning 0], Except.ok (PriorRes.objArr [])) ∧
      _prune_A (.single ⟨[2, 2], [2, 1, 1, 3]⟩) (.flat [0]) (.flat []) true
        = ([PruneEvent.sliced 0], Except.error (PyErr.notImplementedError prune_A_msg)) :=
  ⟨rfl, rfl⟩

/-- C7 (amended): every Dirichlet-flag call of `_prune_A` fails with the
NotImplementedError, but only after slicing every modality — its event
trace is exactly the `sliced` events, performed before the failure.  A
Dirichlet-flag call of `_prune_prior` on a plain vector fails immediately
with no prior event; on an object-array prior it fails as soon as some
factor retains at least one level, with nothing but warnings (no slicing,
no renormalization) before the failure; but when every factor loses all
of its levels, `_prune_prior` returns (with warnings) instead of
failing. -/
theorem prune_dirichlet_amended :
    (∀ (As : List (NDArray ℚ)) (obsLs stLs : List (List ℕ)),
      _prune_A (.objArr As) (.perFactor obsLs) (.perFactor stLs) true
        = ((List.range As.length).map PruneEvent.sliced,
            Except.error (PyErr.notImplementedError prune_A_msg))) ∧
    (∀ (a : NDArray ℚ) (obsF stF : List ℕ),
      _prune_A (.single a) (.flat obsF) (.flat stF) true
        = ([PruneEvent.sliced 0], Except.error (PyErr.notImplementedError prune_A_msg))) ∧
    (∀ (p : List ℚ) (ls : List ℕ),
      _prune_prior (.single p) (.flat ls) true
        = ([], Except.error (PyErr.notImplementedError prune_prior_msg))) ∧
    (∀ (ps : List (List ℚ)) (ls : List (List ℕ)),
      (∃ f, f < ps.length ∧ prune_keep ls f (ps.getD f []) ≠ []) →
        (_prune_prior (.objArr ps) (.perFactor ls) true).2
            = Except.error (PyErr.notImplementedError prune_prior_msg) ∧
          ∀ e ∈ (_prune_prior (.objArr ps) (.perFactor ls) true).1,
            ∃ g, e = PruneEvent.warning g) := by
  refine ⟨fun As obsLs stLs => rfl, fun a obsF stF => rfl, fun p ls => rfl,
    fun ps ls h => ?_⟩
  obtain ⟨f, hf, hk⟩ := h
  have hk0 : prune_keep ls (0 + f) (ps.getD f []) ≠ [] := by simpa using hk
  obtain ⟨herr, hwarn⟩ := prune_prior_factors_true ls ps 0 ⟨f, hf, hk0⟩
  constructor
  · show ((prune_prior_factors true ls 0 ps).2.map _) = _
    rw [herr]
    rfl
  · intro e he
    exact hwarn e he

/-- Witness for C7 (amended), object-array branch, at a concrete prior
with a surviving factor: the Dirichlet-flag call fails with the
NotImplementedError. -/
theorem prune_dirichlet_amended_witness :
    (_prune_prior (.objArr [[1, 1]]) (.perFactor [[0]]) true).2
        = Except.error (PyErr.notImplementedError prune_prior_msg) :=
  (prune_dirichlet_amended.2.2.2 [[1, 1]] [[0]] ⟨0, by decide, by decide⟩).1

/-- Counterexample for C8: the claim says removing every level of a
factor surfaces an explicit warning for both the single-factor
plain-vector and the multi-factor input.  On the plain-vector input
`[1, 1]` with both levels removed, `_prune_prior` performs the slicing
and renormalization and returns the empty vector with no warning at all:
its trace is exactly `[sliced, renormalized]` — a silent collapse. -/
theorem prune_prior_silent_collapse_counterexample :
    _prune_prior (.single [1, 1]) (.flat [0, 1]) false
        = ([PruneEvent.sliced 0, PruneEvent.renormalized 0],
            Except.ok (PriorRes.single [])) := rfl

/-- C8 (amended): on a multi-factor (object-array) prior, removing every
level of a factor surfaces the explicit warning for that factor and the
factor is dropped — the returned factorization holds exactly the pruned,
renormalized vectors of the factors that retain a level, in order; on a
single-factor plain-vector prior, removing every level returns the empty
renormalized vector silently, with no warning. -/
theorem prune_prior_collapse_amended :
    (∀ (ps : List (List ℚ)) (ls : List (List ℕ)) (f : ℕ), f < ps.length →
      prune_keep ls f (ps.getD f []) = [] →
        PruneEvent.warning f ∈ (_prune_prior (.objArr ps) (.perFactor ls) false).1 ∧
        (_prune_prior (.objArr ps) (.perFactor ls) false).2 =
          Except.ok (PriorRes.objArr
            (((List.range ps.length).filter fun g => ¬ prune_keep ls g (ps.getD g []) = []).map
              fun g => some (norm_dist_vec ((prune_keep ls g (ps.getD g [])).map
                fun l => (ps.getD g []).getD l 0))))) ∧
    (∀ (p : List ℚ) (ls : List ℕ),
      (List.range p.length).filter (fun l => l ∉ ls) = [] →
        _prune_prior (.single p) (.flat ls) false
          = ([PruneEvent.sliced 0, PruneEvent.renormalized 0],
              Except.ok (PriorRes.single []))) := by
  constructor
  · intro ps ls f hf hk
    have hloop := prune_prior_factors_false ls ps 0
    have hmemrem : f ∈ (prune_prior_spec ls 0 ps).2.2 :=
      (prune_prior_spec_rem_mem ls ps 0 f).mpr ⟨f, hf, by omega, by simpa using hk⟩
    constructor
    · show PruneEvent.warning f ∈ (prune_prior_factors false ls 0 ps).1
      rw [hloop]
      have hw := prune_prior_spec_warning_mem ls ps 0 f hf (by simpa using hk)
      simpa using hw
    · have htop : (_prune_prior (.objArr ps) (.perFactor ls) false).2
          = (prune_prior_factors false ls 0 ps).2.map fun pr =>
              if pr.2 = [] then PriorRes.objArr pr.1
              else PriorRes.objArr (((List.range ps.length).filter fun g => g ∉ pr.2).map
                fun g => pr.1.getD g none) := rfl
      rw [htop, hloop]
      have hne : (prune_prior_spec ls 0 ps).2.2 ≠ [] := List.ne_nil_of_mem hmemrem
      rw [show ((Except.ok ((prune_prior_spec ls 0 ps).2.1, (prune_prior_spec ls 0 ps).2.2) :
            Except PyErr (List (Option (List ℚ)) × List ℕ)).map fun pr =>
              if pr.2 = [] then PriorRes.objArr pr.1
              else PriorRes.objArr (((List.range ps.length).filter fun g => g ∉ pr.2).map
                fun g => pr.1.getD g none))
          = Except.ok (if (prune_prior_spec ls 0 ps).2.2 = []
              then PriorRes.objArr (prune_prior_spec ls 0 ps).2.1
              else PriorRes.objArr
                (((List.range ps.length).filter fun g => g ∉ (prune_prior_spec ls 0 ps).2.2).map
                  fun g => (prune_prior_spec ls 0 ps).2.1.getD g none)) from rfl]
      rw [if_neg hne]
      have hfilter : ((List.range ps.length).filter fun g => g ∉ (prune_prior_spec ls 0 ps).2.2)
          = ((List.range ps.length).filter fun g => ¬ prune_keep ls g (ps.getD g []) = []) := by
        apply List.filter_congr
        intro g hg
        have hglt : g < ps.length := by simpa using hg
        have hiff : g ∈ (prune_prior_spec ls 0 ps).2.2 ↔ prune_keep ls g (ps.getD g []) = [] := by
          rw [prune_prior_spec_rem_mem ls ps 0 g]
          constructor
          · rintro ⟨i, hi, rfl, hki⟩
            simpa using hki
          · intro hkg
            exact ⟨g, hglt, by omega, by simpa using hkg⟩
        simp [hiff]
      rw [hfilter]
      refine congrArg Except.ok (congrArg PriorRes.objArr (List.map_congr_left ?_))
      intro g hg
      have hglt : g < ps.length := by
        have := List.mem_filter.mp hg
        simpa using this.1
      have hgkeep : ¬ prune_keep ls g (ps.getD g []) = [] := by
        have := List.mem_filter.mp hg
        simpa using this.2
      have hred := prune_prior_spec_red_getD ls ps 0 g hglt
      rw [show (0 : ℕ) + g = g by omega] at hred
      rw [hred, if_neg hgkeep]
  · intro p ls hk
    show ([PruneEvent.sliced 0, PruneEvent.renormalized 0],
        Except.ok (PriorRes.single (norm_dist_vec
          (((List.range p.length).filter fun l => l ∉ ls).map fun l => p.getD l 0)))) = _
    rw [hk]
    rfl

/-- Witness for C8 (amended) at a concrete two-factor prior whose first
factor loses both levels: the warning for factor 0 is in the trace. -/
theorem prune_prior_collapse_amended_witness :
    PruneEvent.warning 0 ∈ (_prune_prior (.objArr [[1, 1], [2, 2]])
      (.perFactor [[0, 1], []]) false).1 :=
  (prune_prior_collapse_amended.1 [[1, 1], [2, 2]] [[0, 1], []] 0
    (by decide) (by decide)).1

end PyMDP
